import Mathlib

/-!
Verification development for the guardian daemon's core mechanisms:
the deposit-event ingestion cache, the range-splitting fetch fallback,
the guardian signing pipeline, the pause submission paths, the
repository contract/prefix cache, and the single-flight guard.

Block numbers are modelled as `Int` (JavaScript numbers under integer
arithmetic), byte values and uint256 words as `Nat`.  External
collaborators (the chain client's log query, keccak256, the ECDSA
signing primitive) are parameters of the definitions that call them;
everything the repository itself computes is translated directly from
the source.
-/

namespace Deposit

/-- A deposit event as the service caches it (`formatEvent` keeps exactly
these fields of the raw log). -/
structure DepositEvent where
  pubkey : String
  wc : String
  amount : String
  signature : String
  tx : String
  blockNumber : Int
deriving DecidableEq

/-- The result shape of `fetchEvents` / `fetchEventsFallOver`:
events plus the queried range. -/
structure DepositEventGroup where
  events : List DepositEvent
  startBlock : Int
  endBlock : Int
deriving DecidableEq

/-- The persisted cache: an event group plus the application version tag. -/
structure DepositEventsCache where
  events : List DepositEvent
  startBlock : Int
  endBlock : Int
  version : String
deriving DecidableEq

/-- Outcome of one raw `fetchEvents` call against the provider, after the
error classification done in `fetchEventsFallOver`: success, a rate-limit
error (`error.error.code === ERROR_LIMIT_EXCEEDED`), a timeout
(`error.code === 'TIMEOUT'`), or any other error. -/
inductive FetchResult where
  | ok (events : List DepositEvent)
  | errLimitExceeded
  | errTimeout
  | errOther
deriving DecidableEq

/-- `isPartitionRequired = isTimeout || isLimitExceeded` from
`fetchEventsFallOver`. -/
def isPartitionRequired : FetchResult → Bool
  | .errLimitExceeded => true
  | .errTimeout => true
  | _ => false

/-- `fetchEventsFallOver(startBlock, endBlock)`.  The provider is the
function `fetchEvents`; recursion is bounded by explicit fuel standing for
the number of (re)tries the run gets — the source retries indefinitely, so
an exhausted-fuel result `none` models a run that never returned.  On a
rate-limit/timeout error with `endBlock - startBlock > 1` the range is
split at `center = Math.ceil((endBlock + startBlock) / 2)` into
`[startBlock, center-1]` and `[center, endBlock]` (`Promise.all` keeps the
first half's events before the second half's regardless of completion
order); on any other error, or an unsplittable range, the same range is
retried after a sleep. -/
def fetchEventsFallOver (fetchEvents : Int → Int → FetchResult) :
    Nat → Int → Int → Option DepositEventGroup
  | 0, _, _ => none
  | fuel + 1, startBlock, endBlock =>
    match fetchEvents startBlock endBlock with
    | .ok events => some ⟨events, startBlock, endBlock⟩
    | r =>
      if endBlock - startBlock > 1 ∧ isPartitionRequired r = true then
        let center := Int.fdiv (endBlock + startBlock + 1) 2
        match fetchEventsFallOver fetchEvents fuel startBlock (center - 1),
              fetchEventsFallOver fetchEvents fuel center endBlock with
        | some first, some second =>
          some ⟨first.events ++ second.events, startBlock, endBlock⟩
        | _, _ => none
      else
        fetchEventsFallOver fetchEvents fuel startBlock endBlock

/-- `getCachedEvents`: the persisted cache with `startBlock`/`endBlock`
clamped to be at least the contract's deployment block. -/
def getCachedEvents (deploymentBlock : Int) (store : DepositEventsCache) :
    DepositEventsCache :=
  { store with
    startBlock := max store.startBlock deploymentBlock
    endBlock := max store.endBlock deploymentBlock }

/-- Observable outcome of one `updateEventsCache` run: the final content of
the persistent store, every snapshot passed to `setCachedEvents` in order,
and every block range passed to `fetchEventsFallOver` in order. -/
structure UpdateResult where
  finalCache : DepositEventsCache
  persisted : List DepositEventsCache
  fetched : List (Int × Int)
deriving DecidableEq

/-- The chunk loop of `updateEventsCache`: while `block ≤ toBlock`, fetch
`[block, min toBlock (block + step - 1)]`, extend the in-memory event
group, persist it tagged with the application version, and advance by
`step`.  `eventGroup` is the in-memory accumulator, `store` the current
content of the persistent store.  The `1 ≤ step` guard only makes the
recursion total; the source's step is the positive constant
`DEPOSIT_EVENTS_STEP`. -/
def updateLoop (step : Int) (fetchFn : Int → Int → List DepositEvent)
    (appVersion : String) (toBlock : Int) (block : Int)
    (eventGroup : DepositEventsCache) (store : DepositEventsCache) :
    UpdateResult :=
  if _h : 1 ≤ step ∧ block ≤ toBlock then
    let chunkToBlock := min toBlock (block + step - 1)
    let chunkEvents := fetchFn block chunkToBlock
    let eg : DepositEventsCache :=
      { eventGroup with
        endBlock := chunkToBlock
        events := eventGroup.events ++ chunkEvents }
    let persistedCache : DepositEventsCache := { eg with version := appVersion }
    let rest :=
      updateLoop step fetchFn appVersion toBlock (block + step) eg persistedCache
    ⟨rest.finalCache, persistedCache :: rest.persisted,
      (block, chunkToBlock) :: rest.fetched⟩
  else
    ⟨store, [], []⟩
termination_by (toBlock + 1 - block).toNat
decreasing_by omega

/-- The canonical partition of `[block, toBlock]` into consecutive chunks
of `step` blocks (the last one truncated at `toBlock`). -/
def chunkRanges (step toBlock : Int) (block : Int) : List (Int × Int) :=
  if _h : 1 ≤ step ∧ block ≤ toBlock then
    (block, min toBlock (block + step - 1)) :: chunkRanges step toBlock (block + step)
  else
    []
termination_by (toBlock + 1 - block).toNat
decreasing_by omega

/-- `updateEventsCache()`: reads the current head and the clamped cache,
then walks `[cache.endBlock + 1, currentBlock - lag]` with `updateLoop`.
`fetchFn` gives the events each chunk fetch eventually returns (the source
retries a chunk until it succeeds). -/
def updateEventsCache (step lag deploymentBlock : Int) (appVersion : String)
    (fetchFn : Int → Int → List DepositEvent) (currentBlock : Int)
    (store : DepositEventsCache) : UpdateResult :=
  let initialCache := getCachedEvents deploymentBlock store
  let firstNotCachedBlock := initialCache.endBlock + 1
  let toBlock := currentBlock - lag
  updateLoop step fetchFn appVersion toBlock firstNotCachedBlock initialCache store

/-- `getDepositRoot(blockTag)` as written in the source: it ignores the
block tag, performs no contract call, and returns the empty string. -/
def getDepositRoot (_blockTag : Option Int) : String := ""

/-- A provider for the C2 scenario: the full range `[100, 110]` answers
with a rate-limit error, every other range succeeds with a single marker
event. -/
def scenarioOracle (startBlock endBlock : Int) : FetchResult :=
  if startBlock = 100 ∧ endBlock = 110 then .errLimitExceeded
  else .ok [⟨"pk", "wc", "32", "sig", "tx", startBlock⟩]

/-- A provider on which the two-block range `[100, 101]` always answers
with a rate-limit error while both single blocks succeed. -/
def twoBlockOracle (startBlock endBlock : Int) : FetchResult :=
  if startBlock = 100 ∧ endBlock = 101 then .errLimitExceeded
  else .ok []

/-- The initial cache of the C3 scenario. -/
def scenarioCache : DepositEventsCache := ⟨[], 100, 200, "v1"⟩

/-- A cache whose `endBlock` is already past `currentHead - LAG`
(C4 counterexample input). -/
def aheadCache : DepositEventsCache := ⟨[], 100, 300, "v1"⟩

/-- A chunk fetch that returns no events (the C3/C4 scenarios constrain
only the ranges walked, not the events). -/
def noEvents (_start _end : Int) : List DepositEvent := []

end Deposit

namespace Security

/-- An ethers split signature as the pause paths consume it
(`{ r, _vs: vs }`). -/
structure SplitSig where
  r : String
  vs : String
deriving DecidableEq

/-- A state-changing contract send the pause paths can issue:
`contract.pauseDeposits(blockNumber, blockHash, { r, vs })` in the legacy
service, `contract.setValidatorUnsafe(blocknumber, index, slashAmount,
{ r, vs })` in the current one. -/
inductive TxSend where
  | pauseDepositsTx (blockNumber : Int) (blockHash : String) (r vs : String)
  | setValidatorUnsafeTx (blockNumber index slashAmount : Int) (r vs : String)
deriving DecidableEq

/-- The on-chain state the pause paths can read: the security contract's
`isPaused()` predicate. -/
structure ChainState where
  isPaused : Bool
deriving DecidableEq

/-- `SecurityService.pauseDeposits(blockNumber, blockHash, signature)`
(the legacy service): re-reads `isPaused()` fresh; if already paused it
logs a warning and returns, sending nothing; otherwise it sends exactly
one `pauseDeposits` transaction.  The value is the list of contract sends
the call performs. -/
def pauseDeposits (chain : ChainState) (blockNumber : Int) (blockHash : String)
    (signature : SplitSig) : List TxSend :=
  if chain.isPaused then []
  else [TxSend.pauseDepositsTx blockNumber blockHash signature.r signature.vs]

/-- `SecurityService.pauseAKeyDeposits(blocknumber, index, slashAmount,
signature)` (the current service): logs, bumps the attempts metric, and
sends `setValidatorUnsafe` unconditionally — the body contains no
`isPaused()` / `canDeposit()` read, so the chain state argument is unused.
The value is the list of contract sends the call performs. -/
def pauseAKeyDeposits (_chain : ChainState) (blocknumber index slashAmount : Int)
    (signature : SplitSig) : List TxSend :=
  [TxSend.setValidatorUnsafeTx blocknumber index slashAmount
    signature.r signature.vs]

end Security

namespace Wallet

/-- A `width`-byte big-endian encoding of `value % 256 ^ width`, the layout
`solidityPack` gives a `uint256` or `bytes32` word. -/
def toBytesBE : Nat → Nat → List Nat
  | 0, _ => []
  | width + 1, value => toBytesBE width (value / 256) ++ [value % 256]

/-- `solidityPack(['bytes32','uint256','uint256','uint256'], [prefix,
blockNumber, index, slashAmount])` from `signPauseData`: the packed
concatenation of four 32-byte words. -/
def solidityPackPause (pfx blockNumber index slashAmount : Nat) : List Nat :=
  toBytesBE 32 pfx ++ toBytesBE 32 blockNumber ++ toBytesBE 32 index ++
    toBytesBE 32 slashAmount

/-- `solidityPack(['bytes32','uint256','bytes32','bytes32','uint256[]'],
[prefix, blockNumber, blockHash, depositRoot, indexs])` from
`signDepositData`: four 32-byte words followed by the packed array
elements (packed mode concatenates the 32-byte elements with no length
word). -/
def solidityPackDeposit (pfx blockNumber blockHash depositRoot : Nat)
    (indexs : List Nat) : List Nat :=
  toBytesBE 32 pfx ++ toBytesBE 32 blockNumber ++ toBytesBE 32 blockHash ++
    toBytesBE 32 depositRoot ++ (indexs.map (toBytesBE 32)).flatten

/-- An ECDSA signature as ethers returns it. -/
structure EcdsaSignature where
  r : Nat
  s : Nat
  v : Nat
deriving DecidableEq

/-- `signMessage(message)`: `wallet._signingKey().signDigest(message)`.
`signDigest` is ethers' deterministic (RFC 6979) ECDSA primitive over the
in-memory private key; it is modelled as a function of the key and the
digest, which is exactly the determinism the library guarantees. -/
def signMessage (signDigest : Nat → Nat → EcdsaSignature) (privateKey : Nat)
    (message : Nat) : EcdsaSignature :=
  signDigest privateKey message

/-- `signPauseData(prefix, blockNumber, index, slashAmount)`:
`signMessage(keccak256(solidityPack(...)))`. -/
def signPauseData (keccak256 : List Nat → Nat)
    (signDigest : Nat → Nat → EcdsaSignature) (privateKey : Nat)
    (pfx blockNumber index slashAmount : Nat) : EcdsaSignature :=
  signMessage signDigest privateKey
    (keccak256 (solidityPackPause pfx blockNumber index slashAmount))

/-- `signDepositData(prefix, blockNumber, blockHash, depositRoot, indexs)`:
`signMessage(keccak256(solidityPack(...)))`. -/
def signDepositData (keccak256 : List Nat → Nat)
    (signDigest : Nat → Nat → EcdsaSignature) (privateKey : Nat)
    (pfx blockNumber blockHash depositRoot : Nat) (indexs : List Nat) :
    EcdsaSignature :=
  signMessage signDigest privateKey
    (keccak256 (solidityPackDeposit pfx blockNumber blockHash depositRoot indexs))

/-- A concrete stand-in digest function for instantiating the signing
theorems on closed inputs. -/
def sampleKeccak (packed : List Nat) : Nat := packed.length

/-- A concrete stand-in signing primitive for instantiating the signing
theorems on closed inputs. -/
def sampleSignDigest (privateKey digest : Nat) : EcdsaSignature :=
  ⟨privateKey, digest, 27⟩

end Wallet

namespace Repository

/-- The on-chain constants behind a DSM (security-contract) binding:
each bound address exposes its `ATTEST_MESSAGE_PREFIX` and
`PAUSE_MESSAGE_PREFIX`. -/
structure DSMChain where
  attestOf : Nat → String
  pauseOf : Nat → String

/-- The repository service's mutable state: the cached DSM contract
binding (an address, `none` before first init) and the
`cachedDSMPrefixes` record with its `attest` and `pause` keys. -/
structure RepoState where
  dsm : Option Nat
  attest : Option String
  pause : Option String
deriving DecidableEq

/-- `getAttestMessagePrefix()`: returns the cached `attest` entry if
present, else reads `ATTEST_MESSAGE_PREFIX` from the cached DSM contract
and caches it.  With no DSM binding `getCachedDSMContract` throws,
modelled as a `none` result. -/
def getAttestMessagePrefix (chain : DSMChain) (st : RepoState) :
    RepoState × Option String :=
  match st.attest with
  | some p => (st, some p)
  | none =>
    match st.dsm with
    | some a => ({ st with attest := some (chain.attestOf a) },
                  some (chain.attestOf a))
    | none => (st, none)

/-- `getPauseMessagePrefix()`: as `getAttestMessagePrefix`, for the
`pause` key and `PAUSE_MESSAGE_PREFIX`. -/
def getPauseMessagePrefix (chain : DSMChain) (st : RepoState) :
    RepoState × Option String :=
  match st.pause with
  | some p => (st, some p)
  | none =>
    match st.dsm with
    | some a => ({ st with pause := some (chain.pauseOf a) },
                  some (chain.pauseOf a))
    | none => (st, none)

/-- `initCachedDSMContract(blockTag)`: rebinds the DSM contract to the
address the locator returned, prunes `cachedDSMPrefixes` to `{}`, and
re-fetches both prefixes before the init completes. -/
def initCachedDSMContract (chain : DSMChain) (address : Nat)
    (st : RepoState) : RepoState :=
  let st1 : RepoState := { st with dsm := some address }
  let st2 : RepoState := { st1 with attest := none, pause := none }
  let st3 := (getAttestMessagePrefix chain st2).1
  (getPauseMessagePrefix chain st3).1

/-- The operations that touch the DSM binding or its prefixes. -/
inductive RepoOp where
  | initDSM (address : Nat)
  | getAttest
  | getPause
deriving DecidableEq

/-- One repository operation acting on the state. -/
def repoStep (chain : DSMChain) (st : RepoState) : RepoOp → RepoState
  | .initDSM a => initCachedDSMContract chain a st
  | .getAttest => (getAttestMessagePrefix chain st).1
  | .getPause => (getPauseMessagePrefix chain st).1

/-- Run a sequence of repository operations from the fresh state
(no binding, no cached prefixes). -/
def repoRun (chain : DSMChain) (ops : List RepoOp) : RepoState :=
  ops.foldl (repoStep chain) ⟨none, none, none⟩

/-- The binding/prefix coherence invariant: every cached prefix is the one
the currently bound DSM contract exposes. -/
def RepoInv (chain : DSMChain) (st : RepoState) : Prop :=
  (∀ p, st.attest = some p → ∃ a, st.dsm = some a ∧ p = chain.attestOf a) ∧
  (∀ p, st.pause = some p → ∃ a, st.dsm = some a ∧ p = chain.pauseOf a)

/-- A concrete chain for the C7 witness: contract `a` exposes prefixes
named after `a`. -/
def sampleChain : DSMChain :=
  ⟨fun a => "attest" ++ toString a, fun a => "pause" ++ toString a⟩

end Repository

namespace Guard

/-- How a guarded execution ends. -/
inductive GuardOutcome where
  | success
  | error
  | cancel
deriving DecidableEq

/-- Modelled from the spec: the `OneAtTime` decorator itself is not under
`src/` (only its use sites are), so the single-flight guard follows §4.3 of
the spec: a per-operation busy flag checked at call entry; a call received
while busy returns immediately without invoking the operation and without
raising an error; the flag is set before invocation and cleared via
guaranteed cleanup on every exit path.  `running` counts in-flight
executions of the wrapped operation and `executed` the executions ever
started — both are observers, not part of the guard. -/
structure GuardState where
  busy : Bool
  running : Nat
  executed : Nat
deriving DecidableEq

/-- What can happen to a guarded operation: a new call arrives, or the
in-flight execution finishes with some outcome. -/
inductive GuardEvent where
  | call
  | finish (outcome : GuardOutcome)
deriving DecidableEq

/-- Modelled from the spec: one guard transition.  A call while busy is
dropped (state unchanged, no error); an idle call sets the flag and starts
one execution; a finish — success, error or cancellation alike — runs the
guaranteed cleanup that clears the flag. -/
def guardStep (st : GuardState) : GuardEvent → GuardState
  | .call =>
    if st.busy then st
    else { busy := true, running := st.running + 1, executed := st.executed + 1 }
  | .finish _ =>
    if st.running = 0 then st
    else { busy := false, running := st.running - 1, executed := st.executed }

/-- The guard before any call: idle. -/
def guardInit : GuardState := ⟨false, 0, 0⟩

/-- Run a sequence of events through the guard from the idle state. -/
def runGuard (events : List GuardEvent) : GuardState :=
  events.foldl guardStep guardInit

/-- The guard invariant: the busy flag is set exactly while one execution
is in flight, and never more than one is. -/
def GuardInv (st : GuardState) : Prop :=
  (st.busy = true ↔ st.running = 1) ∧ st.running ≤ 1

end Guard

namespace SecurityConstants

/-- `DEPOSIT_SECURITY_BY_NETWORK`: Mainnet (chain 1) and Goerli (chain 5)
entries. -/
def DEPOSIT_SECURITY_BY_NETWORK (chainId : Nat) : Option String :=
  if chainId = 1 then some "0xDb149235B6F40dC08810AA69869783Be101790e7"
  else if chainId = 5 then some "0xed23ad3ea5fb9d10e7371caef1b141ad1c23a80c"
  else none

/-- `DEPOSIT_NODE_OPERATOR_BY_NETWORK`: a Goerli (chain 5) entry only. -/
def DEPOSIT_NODE_OPERATOR_BY_NETWORK (chainId : Nat) : Option String :=
  if chainId = 5 then some "0x2acd68AF4211BC82Ca526BE28e2fF3A1cfb424c5"
  else none

/-- `getDepositSecurityAddress(chainId)`: looks up
`DEPOSIT_SECURITY_BY_NETWORK`, throwing on a missing entry. -/
def getDepositSecurityAddress (chainId : Nat) : Except String String :=
  match DEPOSIT_SECURITY_BY_NETWORK chainId with
  | some address => .ok address
  | none => .error "Chain is not supported"

/-- `getDepositNodeOperatorAddress(chainId)` as written in the source: it
also reads `DEPOSIT_SECURITY_BY_NETWORK` (not
`DEPOSIT_NODE_OPERATOR_BY_NETWORK`), throwing on a missing entry. -/
def getDepositNodeOperatorAddress (chainId : Nat) : Except String String :=
  match DEPOSIT_SECURITY_BY_NETWORK chainId with
  | some address => .ok address
  | none => .error "Chain is not supported"

end SecurityConstants

namespace Deposit

/-- When the step is nonpositive or the range is already exhausted, the
chunk loop leaves the store untouched, persisting and fetching nothing. -/
theorem updateLoop_base (step : Int) (fetchFn : Int → Int → List DepositEvent)
    (appVersion : String) (toBlock block : Int) (eg store : DepositEventsCache)
    (h : ¬(1 ≤ step ∧ block ≤ toBlock)) :
    updateLoop step fetchFn appVersion toBlock block eg store = ⟨store, [], []⟩ := by
  rw [updateLoop]
  simp [h]

/-- Whenever the chunk loop runs at least one chunk, the final store's
`endBlock` is exactly `toBlock`: the last chunk is truncated at
`toBlock`. -/
theorem updateLoop_endBlock (step : Int) (fetchFn : Int → Int → List DepositEvent)
    (appVersion : String) (toBlock : Int) :
    ∀ n (block : Int) (eg store : DepositEventsCache),
      (toBlock + 1 - block).toNat = n → 1 ≤ step → block ≤ toBlock →
      (updateLoop step fetchFn appVersion toBlock block eg store).finalCache.endBlock
        = toBlock := by
  intro n
  induction n using Nat.strong_induction_on with
  | _ n ih =>
    intro block eg store hn hstep hle
    rw [updateLoop]
    rw [dif_pos ⟨hstep, hle⟩]
    simp only []
    by_cases h2 : block + step ≤ toBlock
    · exact ih (toBlock + 1 - (block + step)).toNat (by omega) _ _ _ rfl hstep h2
    · rw [updateLoop_base _ _ _ _ _ _ _ (by omega)]
      simp
      omega

/-- The ranges the chunk loop hands to `fetchEventsFallOver` are exactly
the canonical `step`-sized partition of `[block, toBlock]`, and the loop
persists the cache once per chunk. -/
theorem updateLoop_shape (step : Int) (fetchFn : Int → Int → List DepositEvent)
    (appVersion : String) (toBlock : Int) :
    ∀ n (block : Int) (eg store : DepositEventsCache),
      (toBlock + 1 - block).toNat = n →
      (updateLoop step fetchFn appVersion toBlock block eg store).fetched
          = chunkRanges step toBlock block ∧
        (updateLoop step fetchFn appVersion toBlock block eg store).persisted.length
          = (chunkRanges step toBlock block).length := by
  intro n
  induction n using Nat.strong_induction_on with
  | _ n ih =>
    intro block eg store hn
    by_cases h : 1 ≤ step ∧ block ≤ toBlock
    · rw [updateLoop, chunkRanges]
      rw [dif_pos h, dif_pos h]
      simp only []
      have hrec := ih (toBlock + 1 - (block + step)).toNat (by omega) (block + step)
        ({ eg with
            endBlock := min toBlock (block + step - 1)
            events := eg.events ++ fetchFn block (min toBlock (block + step - 1)) })
        ({ eg with
            endBlock := min toBlock (block + step - 1)
            events := eg.events ++ fetchFn block (min toBlock (block + step - 1))
            version := appVersion }) rfl
      simp only [List.length_cons]
      exact ⟨by rw [hrec.1], by rw [hrec.2]⟩
    · rw [updateLoop_base _ _ _ _ _ _ _ h, chunkRanges, dif_neg h]
      exact ⟨rfl, rfl⟩

end Deposit

namespace Repository

/-- `initCachedDSMContract` rebinds the contract, discards both cached
prefixes, and re-fetches both from the new binding — whatever the previous
state was. -/
theorem initCachedDSMContract_eq (chain : DSMChain) (address : Nat)
    (st : RepoState) :
    initCachedDSMContract chain address st =
      ⟨some address, some (chain.attestOf address), some (chain.pauseOf address)⟩ :=
  rfl

/-- Every repository operation preserves the binding/prefix coherence
invariant. -/
theorem repoStep_inv (chain : DSMChain) (st : RepoState) (op : RepoOp)
    (h : RepoInv chain st) : RepoInv chain (repoStep chain st op) := by
  cases op with
  | initDSM a =>
    rw [repoStep, initCachedDSMContract_eq]
    exact ⟨fun p hp => ⟨a, rfl, by injection hp with h1; exact h1.symm⟩,
           fun p hp => ⟨a, rfl, by injection hp with h1; exact h1.symm⟩⟩
  | getAttest =>
    have key : repoStep chain st .getAttest = st ∨
        ∃ a, st.dsm = some a ∧
          repoStep chain st .getAttest = { st with attest := some (chain.attestOf a) } := by
      rw [repoStep, getAttestMessagePrefix]
      cases hat : st.attest with
      | some p => exact Or.inl rfl
      | none =>
        cases hdsm : st.dsm with
        | some a => exact Or.inr ⟨a, rfl, rfl⟩
        | none => exact Or.inl rfl
    rcases key with hk | ⟨a, hdsm, hk⟩
    · rw [hk]; exact h
    · rw [hk]
      exact ⟨fun q hq => ⟨a, hdsm, (Option.some.inj hq).symm⟩,
             fun q hq => h.2 q hq⟩
  | getPause =>
    have key : repoStep chain st .getPause = st ∨
        ∃ a, st.dsm = some a ∧
          repoStep chain st .getPause = { st with pause := some (chain.pauseOf a) } := by
      rw [repoStep, getPauseMessagePrefix]
      cases hpa : st.pause with
      | some p => exact Or.inl rfl
      | none =>
        cases hdsm : st.dsm with
        | some a => exact Or.inr ⟨a, rfl, rfl⟩
        | none => exact Or.inl rfl
    rcases key with hk | ⟨a, hdsm, hk⟩
    · rw [hk]; exact h
    · rw [hk]
      exact ⟨fun q hq => h.1 q hq,
             fun q hq => ⟨a, hdsm, (Option.some.inj hq).symm⟩⟩

/-- Any run from the fresh state lands in an invariant-satisfying state. -/
theorem repoRun_inv (chain : DSMChain) (ops : List RepoOp) :
    RepoInv chain (repoRun chain ops) := by
  rw [repoRun]
  have base : RepoInv chain ⟨none, none, none⟩ :=
    ⟨fun p hp => by simp at hp, fun p hp => by simp at hp⟩
  generalize hst : (⟨none, none, none⟩ : RepoState) = st at base
  clear hst
  induction ops generalizing st with
  | nil => exact base
  | cons op rest ih => exact ih _ (repoStep_inv chain st op base)

end Repository

namespace Guard

/-- Every guard transition preserves the guard invariant. -/
theorem guardStep_inv (st : GuardState) (ev : GuardEvent)
    (h : GuardInv st) : GuardInv (guardStep st ev) := by
  obtain ⟨hbusy, hle⟩ := h
  cases ev with
  | call =>
    rw [guardStep]
    by_cases hb : st.busy
    · simpa [hb] using ⟨hbusy, hle⟩
    · have : st.running = 0 := by
        rcases Nat.lt_or_ge st.running 1 with h1 | h1
        · omega
        · exact absurd (hbusy.mpr (by omega)) (by simpa using hb)
      simp [hb, GuardInv, this]
  | finish oc =>
    rw [guardStep]
    by_cases hr : st.running = 0
    · simpa [hr] using ⟨hbusy, hle⟩
    · simp only [hr, if_false]
      exact ⟨by simp; omega, by simp; omega⟩

/-- Any trace from the idle guard lands in an invariant-satisfying state. -/
theorem runGuard_inv (events : List GuardEvent) : GuardInv (runGuard events) := by
  rw [runGuard]
  have base : GuardInv guardInit := ⟨by simp [guardInit], by simp [guardInit]⟩
  generalize hst : guardInit = st at base
  clear hst
  induction events generalizing st with
  | nil => exact base
  | cons ev rest ih => exact ih _ (guardStep_inv st ev base)

end Guard

/-- C1 counterexample: with deposits already paused on chain
(`isPaused() == true`), `pauseAKeyDeposits` — the current pause-submission
operation — still performs its `setValidatorUnsafe` contract send: its body
re-reads no pause predicate. -/
theorem pauseAKeyDeposits_sends_while_paused :
    Security.ChainState.isPaused ⟨true⟩ = true ∧
      Security.pauseAKeyDeposits ⟨true⟩ 5 7 100 ⟨"r", "vs"⟩ ≠ [] := by
  decide

/-- C1 (amended): the legacy `pauseDeposits` re-reads `isPaused()` fresh
and, when it is true, logs and returns without any contract send; when it
is false it performs exactly the one `pauseDeposits` send.  The current
`pauseAKeyDeposits` performs no `isPaused()` check and always performs
exactly its one `setValidatorUnsafe` send, paused or not. -/
theorem pauseDeposits_guard_amended :
    (∀ chain blockNumber blockHash sig, chain.isPaused = true →
        Security.pauseDeposits chain blockNumber blockHash sig = []) ∧
      (∀ chain blockNumber blockHash sig, chain.isPaused = false →
        Security.pauseDeposits chain blockNumber blockHash sig =
          [Security.TxSend.pauseDepositsTx blockNumber blockHash sig.r sig.vs]) ∧
      (∀ chain blockNumber index slashAmount sig,
        Security.pauseAKeyDeposits chain blockNumber index slashAmount sig =
          [Security.TxSend.setValidatorUnsafeTx blockNumber index slashAmount
            sig.r sig.vs]) := by
  refine ⟨fun chain bn bh sig h => ?_, fun chain bn bh sig h => ?_,
    fun chain bn i sl sig => rfl⟩
  · rw [Security.pauseDeposits, h]; rfl
  · rw [Security.pauseDeposits, h]; rfl

/-- C1 witness: the guard of the legacy path at a concrete paused state,
and the unconditional send of the current path at concrete arguments. -/
theorem pauseDeposits_guard_witness :
    Security.pauseDeposits ⟨true⟩ 5 "0xhash" ⟨"r", "vs"⟩ = [] ∧
      Security.pauseAKeyDeposits ⟨true⟩ 5 7 100 ⟨"r", "vs"⟩ =
        [Security.TxSend.setValidatorUnsafeTx 5 7 100 "r" "vs"] :=
  ⟨pauseDeposits_guard_amended.1 ⟨true⟩ 5 "0xhash" ⟨"r", "vs"⟩ rfl,
   pauseDeposits_guard_amended.2.2 ⟨true⟩ 5 7 100 ⟨"r", "vs"⟩⟩

/-- C9: `getDepositRoot` returns the empty string for every block tag — it
performs no chain query, so an attestation taking its deposit root from
this operation always carries the empty string. -/
theorem getDepositRoot_empty :
    ∀ blockTag blockTag2 : Option Int,
      Deposit.getDepositRoot blockTag = "" ∧
        Deposit.getDepositRoot blockTag = Deposit.getDepositRoot blockTag2 :=
  fun _ _ => ⟨rfl, rfl⟩

/-- C10: `getDepositNodeOperatorAddress` resolves from
`DEPOSIT_SECURITY_BY_NETWORK`: whenever `getDepositSecurityAddress`
succeeds it returns the same address, and it never returns an address
stored in `DEPOSIT_NODE_OPERATOR_BY_NETWORK` (on Goerli, the one chain
with such an entry, the two tables disagree). -/
theorem getDepositNodeOperatorAddress_uses_security_table :
    (∀ chainId address,
        SecurityConstants.getDepositSecurityAddress chainId = .ok address →
        SecurityConstants.getDepositNodeOperatorAddress chainId = .ok address) ∧
      (∀ chainId address stored,
        SecurityConstants.getDepositNodeOperatorAddress chainId = .ok address →
        SecurityConstants.DEPOSIT_NODE_OPERATOR_BY_NETWORK chainId = some stored →
        address ≠ stored) := by
  constructor
  · intro chainId address h
    exact h
  · intro chainId address stored h1 h2
    by_cases h5 : chainId = 5
    · subst h5
      rw [SecurityConstants.getDepositNodeOperatorAddress] at h1
      rw [SecurityConstants.DEPOSIT_NODE_OPERATOR_BY_NETWORK] at h2
      simp [SecurityConstants.DEPOSIT_SECURITY_BY_NETWORK] at h1
      simp at h2
      rw [← h1, ← h2]
      decide
    · rw [SecurityConstants.DEPOSIT_NODE_OPERATOR_BY_NETWORK] at h2
      simp [h5] at h2

/-- C10 witness: on Goerli (chain 5) both getters return the security
address, which differs from the node-operator table's entry. -/
theorem getDepositNodeOperatorAddress_witness :
    SecurityConstants.getDepositNodeOperatorAddress 5 =
        .ok "0xed23ad3ea5fb9d10e7371caef1b141ad1c23a80c" ∧
      "0xed23ad3ea5fb9d10e7371caef1b141ad1c23a80c" ≠
        "0x2acd68AF4211BC82Ca526BE28e2fF3A1cfb424c5" :=
  ⟨getDepositNodeOperatorAddress_uses_security_table.1 5
      "0xed23ad3ea5fb9d10e7371caef1b141ad1c23a80c" rfl,
   getDepositNodeOperatorAddress_uses_security_table.2 5
      "0xed23ad3ea5fb9d10e7371caef1b141ad1c23a80c"
      "0x2acd68AF4211BC82Ca526BE28e2fF3A1cfb424c5" rfl rfl⟩

/-- C6: signing is deterministic — for both attestation kinds, two
invocations with the same key and the same field values yield the same
signature, and the signature is the (deterministic ECDSA) `signDigest` of
the keccak256 hash of the packed encoding of the domain-separation value
and the fields. -/
theorem sign_deterministic :
    (∀ (keccak256 : List Nat → Nat)
        (signDigest : Nat → Nat → Wallet.EcdsaSignature)
        key pfx blockNumber index slashAmount
        key2 pfx2 blockNumber2 index2 slashAmount2,
      key = key2 → pfx = pfx2 → blockNumber = blockNumber2 →
      index = index2 → slashAmount = slashAmount2 →
      Wallet.signPauseData keccak256 signDigest key pfx blockNumber index
          slashAmount =
        Wallet.signPauseData keccak256 signDigest key2 pfx2 blockNumber2 index2
          slashAmount2) ∧
      (∀ (keccak256 : List Nat → Nat)
          (signDigest : Nat → Nat → Wallet.EcdsaSignature)
          key pfx blockNumber blockHash depositRoot indexs
          key2 pfx2 blockNumber2 blockHash2 depositRoot2 indexs2,
        key = key2 → pfx = pfx2 → blockNumber = blockNumber2 →
        blockHash = blockHash2 → depositRoot = depositRoot2 → indexs = indexs2 →
        Wallet.signDepositData keccak256 signDigest key pfx blockNumber
            blockHash depositRoot indexs =
          Wallet.signDepositData keccak256 signDigest key2 pfx2 blockNumber2
            blockHash2 depositRoot2 indexs2) ∧
      (∀ (keccak256 : List Nat → Nat)
          (signDigest : Nat → Nat → Wallet.EcdsaSignature)
          key pfx blockNumber index slashAmount,
        Wallet.signPauseData keccak256 signDigest key pfx blockNumber index
            slashAmount =
          signDigest key
            (keccak256 (Wallet.solidityPackPause pfx blockNumber index
              slashAmount))) ∧
      (∀ (keccak256 : List Nat → Nat)
          (signDigest : Nat → Nat → Wallet.EcdsaSignature)
          key pfx blockNumber blockHash depositRoot indexs,
        Wallet.signDepositData keccak256 signDigest key pfx blockNumber
            blockHash depositRoot indexs =
          signDigest key
            (keccak256 (Wallet.solidityPackDeposit pfx blockNumber blockHash
              depositRoot indexs))) := by
  refine ⟨?_, ?_, fun _ _ _ _ _ _ _ => rfl, fun _ _ _ _ _ _ _ _ => rfl⟩
  · intro kec sd k p bn i sl k2 p2 bn2 i2 sl2 h1 h2 h3 h4 h5
    subst h1; subst h2; subst h3; subst h4; subst h5; rfl
  · intro kec sd k p bn bh dr ix k2 p2 bn2 bh2 dr2 ix2 h1 h2 h3 h4 h5 h6
    subst h1; subst h2; subst h3; subst h4; subst h5; subst h6; rfl

/-- C6 witness: both kinds instantiated at concrete key, digest functions
and field values. -/
theorem sign_deterministic_witness :
    Wallet.signPauseData Wallet.sampleKeccak Wallet.sampleSignDigest
        1 2 3 4 5 =
      Wallet.signPauseData Wallet.sampleKeccak Wallet.sampleSignDigest
        1 2 3 4 5 ∧
      Wallet.signDepositData Wallet.sampleKeccak Wallet.sampleSignDigest
          1 2 3 4 5 [6, 7] =
        Wallet.signDepositData Wallet.sampleKeccak Wallet.sampleSignDigest
          1 2 3 4 5 [6, 7] :=
  ⟨sign_deterministic.1 Wallet.sampleKeccak Wallet.sampleSignDigest
      1 2 3 4 5 1 2 3 4 5 rfl rfl rfl rfl rfl,
   sign_deterministic.2.1 Wallet.sampleKeccak Wallet.sampleSignDigest
      1 2 3 4 5 [6, 7] 1 2 3 4 5 [6, 7] rfl rfl rfl rfl rfl rfl⟩

/-- C7: after any sequence of operations (re-initializations included),
`initCachedDSMContract` leaves exactly the new binding's freshly fetched
prefixes in the cache, and a prefix returned by `getAttestMessagePrefix`
or `getPauseMessagePrefix` is always the one exposed by the currently
bound security contract — never one from a previous binding. -/
theorem dsm_rebind_fresh :
    (∀ chain address st,
        Repository.initCachedDSMContract chain address st =
          ⟨some address, some (chain.attestOf address),
            some (chain.pauseOf address)⟩) ∧
      (∀ chain ops p,
        (Repository.getAttestMessagePrefix chain
            (Repository.repoRun chain ops)).2 = some p →
        ∃ a, (Repository.repoRun chain ops).dsm = some a ∧
          p = chain.attestOf a) ∧
      (∀ chain ops p,
        (Repository.getPauseMessagePrefix chain
            (Repository.repoRun chain ops)).2 = some p →
        ∃ a, (Repository.repoRun chain ops).dsm = some a ∧
          p = chain.pauseOf a) := by
  refine ⟨fun chain a st => Repository.initCachedDSMContract_eq chain a st,
    fun chain ops p hp => ?_, fun chain ops p hp => ?_⟩
  · have hInv := Repository.repoRun_inv chain ops
    rw [Repository.getAttestMessagePrefix] at hp
    cases hat : (Repository.repoRun chain ops).attest with
    | some q =>
      rw [hat] at hp
      exact hInv.1 p (by rw [hat, Option.some.inj hp])
    | none =>
      rw [hat] at hp
      cases hdsm : (Repository.repoRun chain ops).dsm with
      | some a =>
        rw [hdsm] at hp
        exact ⟨a, rfl, (Option.some.inj hp).symm⟩
      | none =>
        rw [hdsm] at hp
        exact absurd hp (by simp)
  · have hInv := Repository.repoRun_inv chain ops
    rw [Repository.getPauseMessagePrefix] at hp
    cases hpa : (Repository.repoRun chain ops).pause with
    | some q =>
      rw [hpa] at hp
      exact hInv.2 p (by rw [hpa, Option.some.inj hp])
    | none =>
      rw [hpa] at hp
      cases hdsm : (Repository.repoRun chain ops).dsm with
      | some a =>
        rw [hdsm] at hp
        exact ⟨a, rfl, (Option.some.inj hp).symm⟩
      | none =>
        rw [hdsm] at hp
        exact absurd hp (by simp)

/-- C7 witness: after binding contract 1 and then rebinding to contract 2,
the attest prefix the repository returns is contract 2's. -/
theorem dsm_rebind_fresh_witness :
    ∃ a, (Repository.repoRun Repository.sampleChain
        [Repository.RepoOp.initDSM 1, Repository.RepoOp.initDSM 2]).dsm =
          some a ∧
      "attest2" = Repository.sampleChain.attestOf a :=
  dsm_rebind_fresh.2.1 Repository.sampleChain
    [Repository.RepoOp.initDSM 1, Repository.RepoOp.initDSM 2] "attest2" rfl

/-- C8 (spec-modelled single-flight guard): in every trace at most one
guarded execution is in flight; a call that arrives while the guard is
busy is dropped without starting an execution and without an error (the
state is unchanged); a finish — success, error or cancellation alike —
always leaves the busy flag cleared; and two back-to-back calls from idle
produce exactly one execution, the trace ending in the same state as a
single call. -/
theorem oneAtTime_single_flight :
    (∀ events, (Guard.runGuard events).running ≤ 1) ∧
      (∀ st : Guard.GuardState, st.busy = true →
        Guard.guardStep st .call = st) ∧
      (∀ events outcome,
        (Guard.guardStep (Guard.runGuard events) (.finish outcome)).busy
          = false) ∧
      Guard.runGuard [.call, .call] = ⟨true, 1, 1⟩ ∧
      Guard.runGuard [.call, .call] = Guard.runGuard [.call] := by
  refine ⟨fun events => (Guard.runGuard_inv events).2,
    fun st hb => by rw [Guard.guardStep, if_pos hb],
    fun events outcome => ?_, by decide, by decide⟩
  have hInv := Guard.runGuard_inv events
  rw [Guard.guardStep]
  by_cases hr : (Guard.runGuard events).running = 0
  · rw [if_pos hr]
    rcases hbusy : (Guard.runGuard events).busy with _ | _
    · rfl
    · exact absurd (hInv.1.mp hbusy) (by omega)
  · rw [if_neg hr]

/-- C8 witness: a call arriving at a concrete busy state is dropped
unchanged, and the concrete two-call trace from idle runs exactly one
execution. -/
theorem oneAtTime_single_flight_witness :
    Guard.guardStep ⟨true, 1, 1⟩ .call = ⟨true, 1, 1⟩ ∧
      Guard.runGuard [.call, .call] = ⟨true, 1, 1⟩ :=
  ⟨oneAtTime_single_flight.2.1 ⟨true, 1, 1⟩ rfl,
   oneAtTime_single_flight.2.2.2.1⟩

namespace Deposit

/-- The clamped cache's `endBlock` is the max of the stored one and the
deployment block. -/
theorem getCachedEvents_endBlock (deploymentBlock : Int)
    (store : DepositEventsCache) :
    (getCachedEvents deploymentBlock store).endBlock
      = max store.endBlock deploymentBlock :=
  rfl

/-- A refresh either runs chunks — and then lands `endBlock` exactly on
`currentBlock - lag` — or runs none and leaves the store untouched. -/
theorem updateEventsCache_cases (step lag deploymentBlock : Int)
    (appVersion : String) (fetchFn : Int → Int → List DepositEvent)
    (currentBlock : Int) (store : DepositEventsCache) :
    (1 ≤ step ∧
        (getCachedEvents deploymentBlock store).endBlock + 1
          ≤ currentBlock - lag ∧
        (updateEventsCache step lag deploymentBlock appVersion fetchFn
            currentBlock store).finalCache.endBlock = currentBlock - lag) ∨
      (¬(1 ≤ step ∧
          (getCachedEvents deploymentBlock store).endBlock + 1
            ≤ currentBlock - lag) ∧
        updateEventsCache step lag deploymentBlock appVersion fetchFn
            currentBlock store = ⟨store, [], []⟩) := by
  by_cases hrun : 1 ≤ step ∧
      (getCachedEvents deploymentBlock store).endBlock + 1 ≤ currentBlock - lag
  · exact Or.inl ⟨hrun.1, hrun.2,
      updateLoop_endBlock step fetchFn appVersion (currentBlock - lag) _ _ _ _
        rfl hrun.1 hrun.2⟩
  · exact Or.inr ⟨hrun, updateLoop_base _ _ _ _ _ _ _ hrun⟩

end Deposit

/-- C3: from `{startBlock: 100, endBlock: 200, events: []}` with
`currentHead = 250`, `LAG = 10`, `STEP = 50`, `refresh()` fetches exactly
`[201, 240]`, persists once and leaves `endBlock = 240`; a later
`refresh()` with `currentHead = 260` fetches exactly `[241, 250]`.  In
general the refresh fetches exactly the canonical `STEP`-chunk partition
of `[cache.endBlock + 1, currentHead - LAG]`, persists once per chunk, and
is a no-op on an empty range. -/
theorem updateEventsCache_walk :
    Deposit.updateEventsCache 50 10 0 "v1" Deposit.noEvents 250
        Deposit.scenarioCache =
      ⟨⟨[], 100, 240, "v1"⟩, [⟨[], 100, 240, "v1"⟩], [(201, 240)]⟩ ∧
    Deposit.updateEventsCache 50 10 0 "v1" Deposit.noEvents 260
        ⟨[], 100, 240, "v1"⟩ =
      ⟨⟨[], 100, 250, "v1"⟩, [⟨[], 100, 250, "v1"⟩], [(241, 250)]⟩ ∧
    (∀ step lag deploymentBlock appVersion fetchFn currentBlock store,
      (Deposit.updateEventsCache step lag deploymentBlock appVersion fetchFn
          currentBlock store).fetched =
        Deposit.chunkRanges step (currentBlock - lag)
          ((Deposit.getCachedEvents deploymentBlock store).endBlock + 1) ∧
      (Deposit.updateEventsCache step lag deploymentBlock appVersion fetchFn
          currentBlock store).persisted.length =
        (Deposit.updateEventsCache step lag deploymentBlock appVersion fetchFn
          currentBlock store).fetched.length) ∧
    (∀ step lag deploymentBlock appVersion fetchFn currentBlock store,
      currentBlock - lag <
          (Deposit.getCachedEvents deploymentBlock store).endBlock + 1 →
      Deposit.updateEventsCache step lag deploymentBlock appVersion fetchFn
          currentBlock store = ⟨store, [], []⟩) := by
  refine ⟨?_, ?_, fun step lag deploy v f head store => ?_,
    fun step lag deploy v f head store hlt => ?_⟩
  · simp only [Deposit.updateEventsCache, Deposit.getCachedEvents,
      Deposit.scenarioCache]
    norm_num
    rw [Deposit.updateLoop]
    norm_num
    rw [Deposit.updateLoop_base _ _ _ _ _ _ _ (by norm_num)]
    simp [Deposit.noEvents]
  · simp only [Deposit.updateEventsCache, Deposit.getCachedEvents]
    norm_num
    rw [Deposit.updateLoop]
    norm_num
    rw [Deposit.updateLoop_base _ _ _ _ _ _ _ (by norm_num)]
    simp [Deposit.noEvents]
  · have h := Deposit.updateLoop_shape step f v (head - lag) _
      ((Deposit.getCachedEvents deploy store).endBlock + 1)
      (Deposit.getCachedEvents deploy store) store rfl
    exact ⟨h.1, h.2.trans (congrArg List.length h.1.symm)⟩
  · exact Deposit.updateLoop_base _ _ _ _ _ _ _ (by omega)

/-- C3 witness: the no-op conjunct at a concrete empty range (head 100,
lag 10, cached up to 200), and the concrete first scenario. -/
theorem updateEventsCache_walk_witness :
    Deposit.updateEventsCache 50 10 0 "v1" Deposit.noEvents 100
        Deposit.scenarioCache = ⟨Deposit.scenarioCache, [], []⟩ ∧
      Deposit.updateEventsCache 50 10 0 "v1" Deposit.noEvents 250
          Deposit.scenarioCache =
        ⟨⟨[], 100, 240, "v1"⟩, [⟨[], 100, 240, "v1"⟩], [(201, 240)]⟩ :=
  ⟨updateEventsCache_walk.2.2.2 50 10 0 "v1" Deposit.noEvents 100
      Deposit.scenarioCache (by decide),
   updateEventsCache_walk.1⟩

/-- C4 counterexample: quantified over *every* initial cache state, the
claimed bound fails — a cache whose `endBlock` (300) already exceeds
`currentHead - LAG` (250 - 10 = 240) is left unchanged by the refresh, so
`endBlock ≤ currentHead - LAG` does not hold afterwards. -/
theorem updateEventsCache_reorg_safety_cex :
    (Deposit.updateEventsCache 50 10 0 "v1" Deposit.noEvents 250
        Deposit.aheadCache).finalCache.endBlock = 300 ∧
      ¬((Deposit.updateEventsCache 50 10 0 "v1" Deposit.noEvents 250
          Deposit.aheadCache).finalCache.endBlock ≤ 250 - 10) := by
  have h : Deposit.updateEventsCache 50 10 0 "v1" Deposit.noEvents 250
      Deposit.aheadCache = ⟨Deposit.aheadCache, [], []⟩ :=
    Deposit.updateLoop_base _ _ _ _ _ _ _ (by decide)
  rw [h]
  decide

/-- C4 (amended): provided the clamped cache does not already extend past
`currentHead - LAG` — as is the case for every cache the refresh itself
produced against a non-decreasing head — the refresh leaves
`endBlock ≤ currentHead - LAG`, for every `LAG`. -/
theorem updateEventsCache_reorg_safety_amended :
    ∀ step lag deploymentBlock appVersion fetchFn currentBlock store,
      max store.endBlock deploymentBlock ≤ currentBlock - lag →
      (Deposit.updateEventsCache step lag deploymentBlock appVersion fetchFn
          currentBlock store).finalCache.endBlock ≤ currentBlock - lag := by
  intro step lag deploy v f head store h
  rcases Deposit.updateEventsCache_cases step lag deploy v f head store with
    ⟨_, _, hend⟩ | ⟨_, heq⟩
  · exact le_of_eq hend
  · rw [heq]
    exact le_trans (le_max_left _ _) h

/-- C4 witness: the amended bound at the concrete scenario cache. -/
theorem updateEventsCache_reorg_safety_witness :
    (Deposit.updateEventsCache 50 10 0 "v1" Deposit.noEvents 250
        Deposit.scenarioCache).finalCache.endBlock ≤ 250 - 10 :=
  updateEventsCache_reorg_safety_amended 50 10 0 "v1" Deposit.noEvents 250
    Deposit.scenarioCache (by decide)

/-- C5: `refresh()` is idempotent against unchanged chain state — a second
refresh at the same head fetches nothing, persists nothing, and returns
the cache of the first refresh unchanged (so no duplicate events and an
unchanged `endBlock`). -/
theorem updateEventsCache_idempotent :
    ∀ step lag deploymentBlock appVersion fetchFn currentBlock store,
      Deposit.updateEventsCache step lag deploymentBlock appVersion fetchFn
          currentBlock
          ((Deposit.updateEventsCache step lag deploymentBlock appVersion
              fetchFn currentBlock store).finalCache) =
        ⟨(Deposit.updateEventsCache step lag deploymentBlock appVersion
            fetchFn currentBlock store).finalCache, [], []⟩ := by
  intro step lag deploy v f head store
  rcases Deposit.updateEventsCache_cases step lag deploy v f head store with
    ⟨hstep, hle, hend⟩ | ⟨hnot, heq⟩
  · exact Deposit.updateLoop_base _ _ _ _ _ _ _
      (by rw [Deposit.getCachedEvents_endBlock, hend]; omega)
  · rw [heq]
    exact heq

/-- C2 counterexample: on the two-block range `[100, 101]` — where
`end > start` holds but `endBlock - startBlock > 1` does not — a
rate-limit error is *not* split: the code retries the same range (forever,
here until the retry fuel runs out), even though both single-block halves
the claim predicts would be fetched succeed. -/
theorem fetchEventsFallOver_two_block_cex :
    Deposit.fetchEventsFallOver Deposit.twoBlockOracle 20 100 101 = none ∧
      Deposit.fetchEventsFallOver Deposit.twoBlockOracle 20 100 100 =
        some ⟨[], 100, 100⟩ ∧
      Deposit.fetchEventsFallOver Deposit.twoBlockOracle 20 101 101 =
        some ⟨[], 101, 101⟩ ∧
      Deposit.twoBlockOracle 100 101 = .errLimitExceeded ∧
      (101 : Int) - 100 > 0 := by
  decide

/-- C2 (amended): on a rate-limit or timeout error the range is split at
the midpoint into `[start, mid-1]` and `[mid, end]` — with both halves
fetched and the first half's events concatenated before the second half's
— when `end - start > 1` (not merely `end > start`); in particular
`fetchRange(100, 110)` splits into `fetchRange(100, 104)` then
`fetchRange(105, 110)`.  On any other error, or a range with
`end - start ≤ 1`, the same range is retried after a fixed delay. -/
theorem fetchEventsFallOver_split_amended :
    (∀ fetchEvents fuel (startBlock endBlock : Int),
      Deposit.isPartitionRequired (fetchEvents startBlock endBlock) = true →
      endBlock - startBlock > 1 →
      Deposit.fetchEventsFallOver fetchEvents (fuel + 1) startBlock endBlock =
        match
          Deposit.fetchEventsFallOver fetchEvents fuel startBlock
            (Int.fdiv (endBlock + startBlock + 1) 2 - 1),
          Deposit.fetchEventsFallOver fetchEvents fuel
            (Int.fdiv (endBlock + startBlock + 1) 2) endBlock with
        | some first, some second =>
          some ⟨first.events ++ second.events, startBlock, endBlock⟩
        | _, _ => none) ∧
    (∀ fetchEvents fuel,
      Deposit.isPartitionRequired (fetchEvents 100 110) = true →
      Deposit.fetchEventsFallOver fetchEvents (fuel + 1) 100 110 =
        match Deposit.fetchEventsFallOver fetchEvents fuel 100 104,
              Deposit.fetchEventsFallOver fetchEvents fuel 105 110 with
        | some first, some second =>
          some ⟨first.events ++ second.events, 100, 110⟩
        | _, _ => none) ∧
    (∀ fetchEvents fuel (startBlock endBlock : Int),
      fetchEvents startBlock endBlock = .errOther →
      Deposit.fetchEventsFallOver fetchEvents (fuel + 1) startBlock endBlock =
        Deposit.fetchEventsFallOver fetchEvents fuel startBlock endBlock) ∧
    (∀ fetchEvents fuel (startBlock endBlock : Int),
      Deposit.isPartitionRequired (fetchEvents startBlock endBlock) = true →
      ¬(endBlock - startBlock > 1) →
      Deposit.fetchEventsFallOver fetchEvents (fuel + 1) startBlock endBlock =
        Deposit.fetchEventsFallOver fetchEvents fuel startBlock endBlock) := by
  have hsplit : ∀ fetchEvents fuel (startBlock endBlock : Int),
      Deposit.isPartitionRequired (fetchEvents startBlock endBlock) = true →
      endBlock - startBlock > 1 →
      Deposit.fetchEventsFallOver fetchEvents (fuel + 1) startBlock endBlock =
        match
          Deposit.fetchEventsFallOver fetchEvents fuel startBlock
            (Int.fdiv (endBlock + startBlock + 1) 2 - 1),
          Deposit.fetchEventsFallOver fetchEvents fuel
            (Int.fdiv (endBlock + startBlock + 1) 2) endBlock with
        | some first, some second =>
          some ⟨first.events ++ second.events, startBlock, endBlock⟩
        | _, _ => none := by
    intro f fuel s e hreq hgt
    cases hr : f s e with
    | ok events => rw [hr] at hreq; simp [Deposit.isPartitionRequired] at hreq
    | errLimitExceeded =>
      simp only [Deposit.fetchEventsFallOver]
      rw [hr]
      exact if_pos ⟨hgt, rfl⟩
    | errTimeout =>
      simp only [Deposit.fetchEventsFallOver]
      rw [hr]
      exact if_pos ⟨hgt, rfl⟩
    | errOther => rw [hr] at hreq; simp [Deposit.isPartitionRequired] at hreq
  refine ⟨hsplit, fun f fuel hreq => ?_, fun f fuel s e hother => ?_,
    fun f fuel s e hreq hnot => ?_⟩
  · have h := hsplit f fuel 100 110 hreq (by norm_num)
    rw [h]
    norm_num [show Int.fdiv 211 2 = 105 from by decide]
  · simp only [Deposit.fetchEventsFallOver]
    rw [hother]
    exact if_neg (fun hc => by simpa [Deposit.isPartitionRequired] using hc.2)
  · cases hr : f s e with
    | ok events => rw [hr] at hreq; simp [Deposit.isPartitionRequired] at hreq
    | errLimitExceeded =>
      simp only [Deposit.fetchEventsFallOver]
      rw [hr]
      exact if_neg (fun hc => hnot hc.1)
    | errTimeout =>
      simp only [Deposit.fetchEventsFallOver]
      rw [hr]
      exact if_neg (fun hc => hnot hc.1)
    | errOther => rw [hr] at hreq; simp [Deposit.isPartitionRequired] at hreq

/-- C2 witness: the scenario oracle rate-limits `[100, 110]`; the split
produces the halves' single events concatenated in block-ascending
order. -/
theorem fetchEventsFallOver_split_witness :
    Deposit.fetchEventsFallOver Deposit.scenarioOracle 2 100 110 =
      some ⟨[⟨"pk", "wc", "32", "sig", "tx", 100⟩,
             ⟨"pk", "wc", "32", "sig", "tx", 105⟩], 100, 110⟩ := by
  have h := fetchEventsFallOver_split_amended.2.1 Deposit.scenarioOracle 1
    (by decide)
  rw [h]
  decide
